import Mathlib

/-!
Verification development for the githubCapture multi-provider LLM gateway
(Rust sources under src-tauri/src). The Rust code is shallowly embedded:
pure functions become Lean functions, the async stream pipeline becomes
explicit list processing, the filesystem cache becomes an explicit map
from path strings to contents, and the Tauri channel sink becomes an
ordered trace of emitted events. Machine details follow the source:
Rust `str::len` is UTF-8 byte length, `str::trim` drops leading/trailing
whitespace, and `char::is_alphanumeric` / `to_lowercase` are modelled on
their ASCII behaviour (all concrete inputs used below are ASCII).
-/

namespace GithubCapture

/-- Model of `src-tauri/src/models.rs` `ModelProvider`. -/
inductive ModelProvider where
| openAI
| anthropic
| google
| deepSeek
| azureOpenAI
| custom (name : String)
deriving DecidableEq, Repr

/-- Model of `models.rs` `ModelConfig`. Timestamps (`chrono::DateTime`) are
modelled as integers; `Utc::now()` is passed in explicitly where the source
calls it. -/
structure ModelConfig where
id : String
name : String
provider : ModelProvider
api_base_url : String
api_key : String
default_model : String
enabled : Bool
created_at : Int
updated_at : Int
deriving DecidableEq, Repr

/-- Model of `models.rs` `ModelConfigUpdate` (partial update). -/
structure ModelConfigUpdate where
name : Option String
provider : Option ModelProvider
api_base_url : Option String
api_key : Option String
default_model : Option String
enabled : Option Bool
deriving DecidableEq, Repr

/-- Model of `models.rs` `ModelConfig::update`: each supplied field is
assigned, then `updated_at` is set to the current time (`now`). `id` and
`created_at` are never touched by the source. -/
def ModelConfig.update (c : ModelConfig) (updates : ModelConfigUpdate) (now : Int) :
    ModelConfig :=
  { c with
    name := updates.name.getD c.name
    provider := updates.provider.getD c.provider
    api_base_url := updates.api_base_url.getD c.api_base_url
    api_key := updates.api_key.getD c.api_key
    default_model := updates.default_model.getD c.default_model
    enabled := updates.enabled.getD c.enabled
    updated_at := now }

/-- Model of `models.rs` `ModelInfo`. -/
structure ModelInfo where
id : String
name : String
provider : ModelProvider
context_length : Option Nat
max_tokens : Option Nat
supports_streaming : Bool
supports_function_calling : Bool
deriving DecidableEq, Repr

/-- Model of `models.rs` `AppConfig`. The `HashMap<String, Vec<ModelInfo>>`
model cache is represented as an association list. -/
structure AppConfig where
active_model_config_id : Option String
model_configs : List ModelConfig
model_cache : List (String × List ModelInfo)
cache_expires_at : Option Int
deriving DecidableEq, Repr

/-- Model of `AppConfig::add_config`: pushes the configuration. -/
def AppConfig.add_config (cfg : AppConfig) (c : ModelConfig) : AppConfig :=
  { cfg with model_configs := cfg.model_configs ++ [c] }

/-- Helper mirroring `iter_mut().find(...)` followed by in-place `update` in
`AppConfig::update_config`: only the first configuration with a matching id
is updated; returns the new list and whether a match was found. -/
def updateFirst (id : String) (updates : ModelConfigUpdate) (now : Int) :
    List ModelConfig → List ModelConfig × Bool
  | [] => ([], false)
  | c :: rest =>
    if c.id = id then (c.update updates now :: rest, true)
    else
      let r := updateFirst id updates now rest
      (c :: r.1, r.2)

/-- Model of `AppConfig::update_config`. -/
def AppConfig.update_config (cfg : AppConfig) (id : String)
    (updates : ModelConfigUpdate) (now : Int) : AppConfig × Bool :=
  let r := updateFirst id updates now cfg.model_configs
  ({ cfg with model_configs := r.1 }, r.2)

/-- Model of `AppConfig::remove_config`: `retain` every configuration whose
id differs; the active id is cleared exactly when something was removed and
the removed id was the active id (the nested `if` of the source). -/
def AppConfig.remove_config (cfg : AppConfig) (id : String) : AppConfig × Bool :=
  let remaining := cfg.model_configs.filter (fun c => c.id ≠ id)
  let removed := remaining.length < cfg.model_configs.length
  ({ cfg with
      model_configs := remaining
      active_model_config_id :=
        if removed ∧ cfg.active_model_config_id = some id then none
        else cfg.active_model_config_id },
   decide removed)

/-- Model of `AppConfig::set_active_config`: succeeds (and assigns) only
when some configuration has the given id. -/
def AppConfig.set_active_config (cfg : AppConfig) (id : String) : AppConfig × Bool :=
  let found := cfg.model_configs.any (fun c => c.id == id)
  ({ cfg with
      active_model_config_id :=
        if found then some id else cfg.active_model_config_id },
   found)

/-- The `ConfigurationSet` invariant from the spec: the active id, when
present, references an existing `ModelConfig`. -/
def ActiveRefsExisting (cfg : AppConfig) : Prop :=
  ∀ a, cfg.active_model_config_id = some a → ∃ c ∈ cfg.model_configs, c.id = a

/-- Model of `llm/mod.rs` `LLMError`. -/
inductive LLMError where
| requestFailed (msg : String)
| authenticationFailed (msg : String)
| modelUnavailable (msg : String)
| insufficientQuota
| networkError (msg : String)
| configurationError (msg : String)
| parseError (msg : String)
| unknown (msg : String)
deriving DecidableEq, Repr

/-- The `Display` strings produced by the `thiserror` attributes on
`LLMError` (used by `.to_string()` in `ai.rs`). -/
def LLMError.toMessage : LLMError → String
  | .requestFailed m => "API请求失败: " ++ m
  | .authenticationFailed m => "认证失败: " ++ m
  | .modelUnavailable m => "模型不可用: " ++ m
  | .insufficientQuota => "额度不足"
  | .networkError m => "网络错误: " ++ m
  | .configurationError m => "配置错误: " ++ m
  | .parseError m => "解析错误: " ++ m
  | .unknown m => "未知错误: " ++ m

/-- Classification kind of an `LLMError`, used to state that the status-code
mapping is a pure function of the status code alone. -/
inductive ErrorKind where
| requestFailed
| authenticationFailed
| modelUnavailable
| insufficientQuota
| networkError
| configurationError
| parseError
| unknown
deriving DecidableEq, Repr

def LLMError.kind : LLMError → ErrorKind
  | .requestFailed _ => .requestFailed
  | .authenticationFailed _ => .authenticationFailed
  | .modelUnavailable _ => .modelUnavailable
  | .insufficientQuota => .insufficientQuota
  | .networkError _ => .networkError
  | .configurationError _ => .configurationError
  | .parseError _ => .parseError
  | .unknown _ => .unknown

/-- Model of `llm/mod.rs` `LLMError::from_status_code`, mirroring the Rust
`match` arm order (`401 | 403`, `404`, `429`, `400..=499`, `500..=599`, `_`).
HTTP status codes are `u16`; they are modelled as `Nat`. -/
def LLMError.from_status_code (status : Nat) (message : String) : LLMError :=
  if status = 401 ∨ status = 403 then .authenticationFailed message
  else if status = 404 then .modelUnavailable message
  else if status = 429 then .insufficientQuota
  else if 400 ≤ status ∧ status ≤ 499 then .requestFailed message
  else if 500 ≤ status ∧ status ≤ 599 then .networkError message
  else .unknown message

/-- The adapter selected by `LLMFactory::create_provider`; the constructor
records which concrete `LLMProvider` implementation is boxed. -/
inductive ProviderKind where
| openAI
| anthropic
| google
| deepSeek
| azureOpenAI
| custom
deriving DecidableEq, Repr

/-- Whether the adapter delegates its `chat_completion` to the OpenAI
adapter: per `llm/custom.rs` and `llm/deepseek.rs`, both hold an
`inner: OpenAIProvider` and forward `chat_completion` to it. -/
def ProviderKind.delegatesToOpenAI : ProviderKind → Bool
  | .deepSeek => true
  | .custom => true
  | _ => false

/-- Model of `llm/mod.rs` `LLMFactory::create_provider`: dispatch on the
vendor tag. Every match arm in the source returns `Ok(Box::new(...))`. -/
def LLMFactory.create_provider (config : ModelConfig) : Except LLMError ProviderKind :=
  match config.provider with
  | .openAI => .ok .openAI
  | .anthropic => .ok .anthropic
  | .google => .ok .google
  | .deepSeek => .ok .deepSeek
  | .azureOpenAI => .ok .azureOpenAI
  | .custom _ => .ok .custom

/-- Model of `ai.rs` `RepoInfo`. -/
structure RepoInfo where
author : String
name : String
description : String
language : String
url : String
stars : Option String
forks : Option String
deriving DecidableEq, Repr

/-- Rust `str::trim`: drop leading and trailing whitespace characters. -/
def rustTrim (s : String) : String :=
  String.mk (((s.data.dropWhile Char.isWhitespace).reverse.dropWhile Char.isWhitespace).reverse)

/-- Rust `char` UTF-8 encoded width in bytes. -/
def charUtf8Size (c : Char) : Nat :=
  if c.val < 0x80 then 1 else if c.val < 0x800 then 2 else if c.val < 0x10000 then 3 else 4

/-- Rust `str::len`: the UTF-8 byte length of a string. -/
def rustLen (s : String) : Nat :=
  s.data.foldl (fun n c => n + charUtf8Size c) 0

/-- Model of `ai.rs` `sanitize_filename`: keep alphanumerics, `-` and `_`,
then lowercase the result (Rust filters first, then `to_lowercase`). -/
def sanitize_filename (name : String) : String :=
  String.mk ((name.data.filter fun c => c.isAlphanum || c = '-' || c = '_').map Char.toLower)

/-- The cache file name `{author_clean}_{name_clean}.md` that
`ai.rs` `get_cache_path` builds; this is the derived CacheKey. -/
def cache_file_name (repo : RepoInfo) : String :=
  sanitize_filename repo.author ++ "_" ++ sanitize_filename repo.name ++ ".md"

/-- Model of `ai.rs` `get_cache_path`: `app_data_dir` (which can fail, hence
the `Option` argument) joined with `ai_insights` and the sanitized file
name. -/
def get_cache_path (dataDir : Option String) (repo : RepoInfo) : Option String :=
  match dataDir with
  | none => none
  | some d => some (d ++ "/ai_insights/" ++ cache_file_name repo)

/-- The filesystem as seen by the insight cache: a map from path to file
contents; `none` models an absent file. -/
def FS : Type := String → Option String

/-- The empty filesystem (no cache entries). -/
def fsEmpty : FS := fun _ => none

/-- Model of `ai.rs` `save_cache`: reject content whose trimmed form is
empty or shorter than 10 bytes; otherwise write the (untrimmed) content at
the cache path. Directory creation and write errors are absorbed (the
source logs and ignores them). -/
def save_cache (dataDir : Option String) (repo : RepoInfo) (content : String)
    (fs : FS) : FS :=
  let trimmed := rustTrim content
  if trimmed.data.isEmpty || rustLen trimmed < 10 then fs
  else
    match get_cache_path dataDir repo with
    | none => fs
    | some p => fun q => if q = p then some content else fs q

/-- Model of `ai.rs` `get_cached_insight_internal`: read the file at the
cache path when it exists. -/
def get_cached_insight_internal (dataDir : Option String) (repo : RepoInfo)
    (fs : FS) : Option String :=
  match get_cache_path dataDir repo with
  | none => none
  | some p => fs p

/-- Second definition for the refinement claim C5, following the spec's
words: "after stripping disallowed characters and case-folding". Two
identity components are spec-equivalent when stripping the characters
outside alphanumerics, `-`, `_` and case-folding yields the same token. -/
def spec_strip_and_case_fold (s : String) : String :=
  String.mk ((s.data.filter fun c => c.isAlphanum || c = '-' || c = '_').map Char.toLower)

/-- Model of `llm/mod.rs` `StreamChunk` (the unified stream events on the
adapter-to-orchestrator channel). -/
inductive StreamChunk where
| text (s : String)
| error (msg : String)
| done
deriving DecidableEq, Repr

/-- Model of `ai.rs` `StreamPayload` (the events forwarded to the caller's
Tauri channel). -/
inductive StreamPayload where
| token (s : String)
| error (msg : String)
| done
deriving DecidableEq, Repr

/-- One inbound SSE frame as `llm/openai.rs` `handle_stream_response` sees
it: either the vendor terminator sentinel literal `[DONE]`, or JSON that
parses (with the optional `choices[0].delta.content` string extracted), or
a frame `serde_json` fails to parse. -/
inductive Frame where
| doneSentinel
| json (delta : Option String)
| malformed (err : String)
deriving DecidableEq, Repr

/-- One event from the `EventSource`: a message frame, another `Ok` event
(e.g. `Event::Open`, ignored by the source), or a transport error. -/
inductive SourceEvent where
| message (f : Frame)
| otherOk
| transportError (err : String)
deriving DecidableEq, Repr

/-- Model of the producer task spawned by `llm/openai.rs`
`handle_stream_response`: the sequence of `StreamChunk`s sent on the
channel for a given sequence of source events. `[DONE]` sends `Done` and
breaks; a parse failure or transport error sends `Error` and breaks; a
parsed frame sends `Text` only for a present, non-empty delta; after the
loop the task always sends one final `Done`. -/
def handle_stream_response : List SourceEvent → List StreamChunk
  | [] => [.done]
  | .message .doneSentinel :: _ => [.done, .done]
  | .message (.json delta) :: rest =>
    (match delta with
     | some s => if s.data.isEmpty then [] else [.text s]
     | none => []) ++ handle_stream_response rest
  | .message (.malformed e) :: _ => [.error e, .done]
  | .otherOk :: rest => handle_stream_response rest
  | .transportError e :: _ => [.error e, .done]

/-- Observable actions of the orchestrator, in order: a network fetch, the
provider `chat_completion` invocation, an event sent on the caller's
channel, or a `save_cache` invocation with the content passed to it. -/
inductive Effect where
| netReadme
| netTree
| netFile (path : String)
| netProvider
| emit (p : StreamPayload)
| cacheWrite (content : String)
deriving DecidableEq, Repr

def Effect.isNetwork : Effect → Bool
  | .netReadme => true
  | .netTree => true
  | .netFile _ => true
  | .netProvider => true
  | _ => false

/-- The payloads the caller observes, extracted from an effect trace. -/
def emitted_payloads (evs : List Effect) : List StreamPayload :=
  evs.filterMap fun e =>
    match e with
    | .emit p => some p
    | _ => none

/-- Model of the `LLMResponse::Stream` consumer loop in `ai.rs`
`summarize_and_cache`: `Text` is forwarded as `Token` and accumulated;
`Error` is forwarded and the loop returns failure; `Done` is forwarded
first, then `save_cache` runs on the accumulated buffer, then the loop
breaks with success. Returns the effect trace, the resulting filesystem
and whether the loop ended without a stream error. -/
def relay_stream (dataDir : Option String) (repo : RepoInfo) (acc : String)
    (fs : FS) : List StreamChunk → List Effect × FS × Bool
  | [] => ([], fs, true)
  | .text t :: rest =>
    let r := relay_stream dataDir repo (acc ++ t) fs rest
    (.emit (.token t) :: r.1, r.2)
  | .error e :: _ => ([.emit (.error e)], fs, false)
  | .done :: _ =>
    ([.emit .done, .cacheWrite acc], save_cache dataDir repo acc fs, true)

/-- Model of the `LLMResponse::Stream` consumer loop in `ai.rs`
`summarize_with_api_key` (the direct-credential path): same relay but with
no cache writes. -/
def relay_stream_nocache : List StreamChunk → List Effect × Bool
  | [] => ([], true)
  | .text t :: rest =>
    let r := relay_stream_nocache rest
    (.emit (.token t) :: r.1, r.2)
  | .error e :: _ => ([.emit (.error e)], false)
  | .done :: _ => ([.emit .done], true)

/-- Model of `llm/mod.rs` `Usage`. -/
structure Usage where
prompt_tokens : Nat
completion_tokens : Nat
total_tokens : Nat
deriving DecidableEq, Repr

/-- Model of `llm/mod.rs` `LLMResponse`: a single completion or a stream
(whose channel contents are the list of chunks the producer sends). -/
inductive LLMResponseM where
| completion (content : String) (model : String) (usage : Option Usage)
| stream (chunks : List StreamChunk)

/-- Model of `ai.rs` `summarize_and_cache` (managed / config-id mode):
look up the configuration by id (not-found fails), create the provider,
invoke `chat_completion` (its outcome is supplied as `respE`), then either
emit the single completion and cache it, or relay the stream. On the
completion branch the source sends `Token`, then `Done`, then calls
`save_cache`. -/
def summarize_and_cache (configs : List ModelConfig)
    (respE : Except LLMError LLMResponseM) (config_id : String)
    (dataDir : Option String) (repo : RepoInfo) (fs : FS) :
    List Effect × FS × Except String Unit :=
  match configs.find? (fun c => c.id == config_id) with
  | none => ([], fs, .error ("找不到模型配置: " ++ config_id))
  | some config =>
    match LLMFactory.create_provider config with
    | .error e => ([], fs, .error e.toMessage)
    | .ok _ =>
      match respE with
      | .error e => ([.netProvider], fs, .error e.toMessage)
      | .ok (.completion content _ _) =>
        ([.netProvider, .emit (.token content), .emit .done, .cacheWrite content],
         save_cache dataDir repo content fs, .ok ())
      | .ok (.stream chunks) =>
        let r := relay_stream dataDir repo "" fs chunks
        (.netProvider :: r.1, r.2.1, if r.2.2 then .ok () else .error "流式响应错误")

/-- Model of `ai.rs` `summarize_with_api_key` (direct-credential mode):
builds a temporary OpenAI configuration, creates the provider, invokes
`chat_completion`, and relays without caching. -/
def summarize_with_api_key (respE : Except LLMError LLMResponseM) :
    List Effect × Except String Unit :=
  match respE with
  | .error e => ([.netProvider], .error e.toMessage)
  | .ok (.completion content _ _) =>
    ([.netProvider, .emit (.token content), .emit .done], .ok ())
  | .ok (.stream chunks) =>
    let r := relay_stream_nocache chunks
    (.netProvider :: r.1, if r.2 then .ok () else .error "流式响应错误")

/-- Results of the best-effort context fetches (`fetch_readme_with_limit`,
`fetch_tree`, `fetch_file_content`) that `summarize_repo` performs. -/
structure FetchEnv where
readme : Option String
tree : Option String
file : String → Option String

/-- The fixed, ordered manifest candidate list in `ai.rs` `summarize_repo`. -/
def config_files : List String :=
  ["package.json", "Cargo.toml", "go.mod", "requirements.txt", "pom.xml"]

/-- Network effects of the deep-mode manifest loop: each candidate is
fetched in order until the first hit (`break` in the source). -/
def manifest_fetch_effects (env : FetchEnv) : List String → List Effect
  | [] => []
  | f :: rest =>
    .netFile f ::
      (match env.file f with
       | some _ => []
       | none => manifest_fetch_effects env rest)

/-- Model of `ai.rs` `summarize_repo`: check the cache unless forced to
refresh (a hit emits the cached text and `Done` and returns); fetch the
README (network); in deep mode fetch the tree and try manifest files
(network); then dispatch on the supplied credential — config id first,
then raw API key, else fail with the validation error. -/
def summarize_repo (env : FetchEnv) (configs : List ModelConfig)
    (respE : Except LLMError LLMResponseM) (repo : RepoInfo)
    (api_key model_config_id : Option String)
    (deep_context force_refresh : Option Bool)
    (dataDir : Option String) (fs : FS) :
    List Effect × FS × Except String Unit :=
  let deep_mode := deep_context.getD false
  let refresh := force_refresh.getD false
  match if refresh then none else get_cached_insight_internal dataDir repo fs with
  | some cached => ([.emit (.token cached), .emit .done], fs, .ok ())
  | none =>
    let ctx := .netReadme ::
      (if deep_mode then .netTree :: manifest_fetch_effects env config_files else [])
    match model_config_id with
    | some cid =>
      let r := summarize_and_cache configs respE cid dataDir repo fs
      (ctx ++ r.1, r.2.1, r.2.2)
    | none =>
      match api_key with
      | some _ =>
        let r := summarize_with_api_key respE
        (ctx ++ r.1, fs, r.2)
      | none => (ctx, fs, .error "必须提供 API Key 或模型配置 ID")

/-- Index of the first `save_cache` invocation in a trace. -/
def idxOfCacheWrite (evs : List Effect) : Option Nat :=
  evs.findIdx? fun e =>
    match e with
    | .cacheWrite _ => true
    | _ => false

/-- Index of the first `Done` payload sent to the caller in a trace. -/
def idxOfDoneEmit (evs : List Effect) : Option Nat :=
  evs.findIdx? fun e => e == .emit .done

/-- Whether the trace commits to the cache strictly before it signals
`Done` to the caller (the ordering claim C3 asserts). -/
def cache_commit_precedes_done (evs : List Effect) : Bool :=
  match idxOfCacheWrite evs, idxOfDoneEmit evs with
  | some i, some j => i < j
  | _, _ => false

/-- A source event that neither terminates nor faults the producer loop:
a parsed JSON frame or a non-message `Ok` event. -/
def SourceEvent.nonTerminating : SourceEvent → Bool
  | .message (.json _) => true
  | .otherOk => true
  | _ => false

/-- The non-empty deltas a list of source events contributes, in order
(empty deltas are dropped by the producer). -/
def deltas_of : List SourceEvent → List String
  | [] => []
  | .message (.json (some s)) :: rest =>
    (if s.data.isEmpty then [] else [s]) ++ deltas_of rest
  | _ :: rest => deltas_of rest

/-- A `RepoInfo` with only the identity fields populated. -/
def mkRepo (author name : String) : RepoInfo :=
  { author := author, name := name, description := "", language := "", url := "",
    stars := none, forks := none }

/-- After a `save_cache` that passes the length guard, reading the cache at
the same identity returns exactly the written content. -/
theorem save_cache_get (d : String) (repo : RepoInfo) (content : String) (fs : FS)
    (h : 10 ≤ rustLen (rustTrim content)) :
    get_cached_insight_internal (some d) repo (save_cache (some d) repo content fs)
      = some content := by
  have h0 : ((rustTrim content).data.isEmpty
      || decide (rustLen (rustTrim content) < 10)) = false := by
    cases he : (rustTrim content).data.isEmpty with
    | true =>
      exfalso
      have hd : (rustTrim content).data = [] := by simpa using he
      have hz : rustLen (rustTrim content) = 0 := by simp [rustLen, hd]
      omega
    | false =>
      simp only [Bool.false_or, decide_eq_false_iff_not]
      omega
  simp [save_cache, get_cached_insight_internal, get_cache_path, h0]

/-- `sanitize_filename` computes exactly the spec's strip-and-case-fold
normalization. -/
theorem sanitize_eq_spec (s : String) :
    sanitize_filename s = spec_strip_and_case_fold s := rfl

/-- C4: for every identity whose derived CacheKey is non-empty and every
text at or above the minimal length threshold (10 bytes of the trimmed
content, as the implementation measures it), a cache put of that text
followed by a get of the same identity returns exactly the text that was
put. -/
theorem C4_cache_round_trip (d : String) (repo : RepoInfo) (content : String) (fs : FS)
    (_hkey : cache_file_name repo ≠ "")
    (hlen : 10 ≤ rustLen (rustTrim content)) :
    get_cached_insight_internal (some d) repo (save_cache (some d) repo content fs)
      = some content :=
  save_cache_get d repo content fs hlen

theorem C4_cache_round_trip_witness :
    cache_file_name (mkRepo "Rust" "Lean") ≠ ""
    ∧ 10 ≤ rustLen (rustTrim "A fine verified project.")
    ∧ get_cached_insight_internal (some "data") (mkRepo "Rust" "Lean")
        (save_cache (some "data") (mkRepo "Rust" "Lean") "A fine verified project." fsEmpty)
        = some "A fine verified project." :=
  ⟨by decide, by decide,
   C4_cache_round_trip "data" (mkRepo "Rust" "Lean") "A fine verified project." fsEmpty
     (by decide) (by decide)⟩

/-- C5: identities that agree after stripping disallowed characters and
case-folding derive equal CacheKeys; `("Foo","Bar")` and `("foo","bar")`
collide, while `("fo-o!","b ar")` does not collide with them (its stripped
author is `fo-o`, not `foo`). -/
theorem C5_key_normalization :
    (∀ r1 r2 : RepoInfo,
        spec_strip_and_case_fold r1.author = spec_strip_and_case_fold r2.author →
        spec_strip_and_case_fold r1.name = spec_strip_and_case_fold r2.name →
        cache_file_name r1 = cache_file_name r2)
    ∧ cache_file_name (mkRepo "Foo" "Bar") = cache_file_name (mkRepo "foo" "bar")
    ∧ cache_file_name (mkRepo "fo-o!" "b ar") ≠ cache_file_name (mkRepo "foo" "bar") := by
  refine ⟨?_, by decide, by decide⟩
  intro r1 r2 h1 h2
  simp [cache_file_name, sanitize_eq_spec, h1, h2]

theorem C5_key_normalization_witness :
    spec_strip_and_case_fold "Foo" = spec_strip_and_case_fold "foo"
    ∧ spec_strip_and_case_fold "Bar" = spec_strip_and_case_fold "bar"
    ∧ cache_file_name (mkRepo "Foo" "Bar") = cache_file_name (mkRepo "foo" "bar") :=
  ⟨by decide, by decide,
   C5_key_normalization.1 (mkRepo "Foo" "Bar") (mkRepo "foo" "bar") (by decide) (by decide)⟩

/-- C6: a cache put whose content trims to fewer than 10 bytes (which
covers the empty string) creates no retrievable record: a get for the same
identity still reports absent when no prior record existed. -/
theorem C6_cache_rejection (dataDir : Option String) (repo : RepoInfo)
    (content : String) (fs : FS)
    (hshort : rustLen (rustTrim content) < 10)
    (hprior : get_cached_insight_internal dataDir repo fs = none) :
    get_cached_insight_internal dataDir repo (save_cache dataDir repo content fs) = none := by
  have h0 : ((rustTrim content).data.isEmpty
      || decide (rustLen (rustTrim content) < 10)) = true := by
    simp [hshort]
  simp [save_cache, h0, hprior]

theorem C6_cache_rejection_witness :
    rustLen (rustTrim "") < 10
    ∧ rustLen (rustTrim "short") < 10
    ∧ get_cached_insight_internal (some "data") (mkRepo "a" "b")
        (save_cache (some "data") (mkRepo "a" "b") "" fsEmpty) = none
    ∧ get_cached_insight_internal (some "data") (mkRepo "a" "b")
        (save_cache (some "data") (mkRepo "a" "b") "short" fsEmpty) = none :=
  ⟨by decide, by decide,
   C6_cache_rejection (some "data") (mkRepo "a" "b") "" fsEmpty (by decide) rfl,
   C6_cache_rejection (some "data") (mkRepo "a" "b") "short" fsEmpty (by decide) rfl⟩

/-- C7: `LLMError::from_status_code` maps 401/403 to authentication
failure, 404 to model-unavailable, 429 to quota exhaustion, every other
4xx to a malformed-request failure, every 5xx to a transport/network
failure, and its classification kind depends only on the status code. -/
theorem C7_status_code_mapping (status : Nat) (msg : String) :
    ((status = 401 ∨ status = 403) →
      LLMError.from_status_code status msg = .authenticationFailed msg)
    ∧ (status = 404 → LLMError.from_status_code status msg = .modelUnavailable msg)
    ∧ (status = 429 → LLMError.from_status_code status msg = .insufficientQuota)
    ∧ (400 ≤ status → status ≤ 499 → status ≠ 401 → status ≠ 403 → status ≠ 404 →
        status ≠ 429 → LLMError.from_status_code status msg = .requestFailed msg)
    ∧ (500 ≤ status → status ≤ 599 →
        LLMError.from_status_code status msg = .networkError msg)
    ∧ (∀ msg2, (LLMError.from_status_code status msg).kind
        = (LLMError.from_status_code status msg2).kind) := by
  refine ⟨?_, ?_, ?_, ?_, ?_, ?_⟩
  · rintro (rfl | rfl) <;> rfl
  · rintro rfl; rfl
  · rintro rfl; rfl
  · intro h1 h2 h3 h4 h5 h6
    unfold LLMError.from_status_code
    rw [if_neg (by omega), if_neg (by omega), if_neg (by omega), if_pos (by omega)]
  · intro h1 h2
    unfold LLMError.from_status_code
    rw [if_neg (by omega), if_neg (by omega), if_neg (by omega), if_neg (by omega),
      if_pos (by omega)]
  · intro msg2
    unfold LLMError.from_status_code
    split_ifs <;> rfl

theorem C7_status_code_mapping_witness :
    LLMError.from_status_code 429 "quota" = .insufficientQuota
    ∧ LLMError.from_status_code 401 "denied" = .authenticationFailed "denied"
    ∧ LLMError.from_status_code 418 "teapot" = .requestFailed "teapot"
    ∧ LLMError.from_status_code 503 "down" = .networkError "down" :=
  ⟨(C7_status_code_mapping 429 "quota").2.2.1 rfl,
   (C7_status_code_mapping 401 "denied").1 (Or.inl rfl),
   (C7_status_code_mapping 418 "teapot").2.2.2.1 (by omega) (by omega) (by omega)
     (by omega) (by omega) (by omega),
   (C7_status_code_mapping 503 "down").2.2.2.2.1 (by omega) (by omega)⟩

/-- Removing an element that fails the filter predicate strictly shrinks
the filtered list. -/
theorem length_filter_lt_of_mem {α : Type} (p : α → Bool) (l : List α) (c : α)
    (hmem : c ∈ l) (hp : p c = false) : (l.filter p).length < l.length := by
  induction l with
  | nil => cases hmem
  | cons x xs ih =>
    rcases List.mem_cons.mp hmem with rfl | hmem2
    · rw [List.filter_cons_of_neg (by simp [hp])]
      have := List.length_filter_le p xs
      simp only [List.length_cons]
      omega
    · cases hx : p x
      · rw [List.filter_cons_of_neg (by simp [hx])]
        have := List.length_filter_le p xs
        simp only [List.length_cons]
        omega
      · rw [List.filter_cons_of_pos (by simp [hx])]
        simpa using Nat.succ_lt_succ (ih hmem2)

/-- `updateFirst` never changes any configuration id (`ModelConfig::update`
has no id field in its update struct). -/
theorem updateFirst_map_id (id : String) (u : ModelConfigUpdate) (now : Int)
    (l : List ModelConfig) :
    (updateFirst id u now l).1.map (fun c => c.id) = l.map (fun c => c.id) := by
  induction l with
  | nil => rfl
  | cons c rest ih =>
    by_cases h : c.id = id
    · simp [updateFirst, h, ModelConfig.update]
    · simp [updateFirst, h, ih]

/-- C8: the `ConfigurationSet` invariant — the active id, when present,
references an existing configuration — is preserved by add, partial
update, remove and set-active; removing the active configuration clears
the active id; set-active succeeds only for an existing id. -/
theorem C8_active_id_invariant (cfg : AppConfig) (hinv : ActiveRefsExisting cfg) :
    (∀ c, ActiveRefsExisting (cfg.add_config c))
    ∧ (∀ id u now, ActiveRefsExisting (cfg.update_config id u now).1)
    ∧ (∀ id, ActiveRefsExisting (cfg.remove_config id).1)
    ∧ (∀ id, ActiveRefsExisting (cfg.set_active_config id).1)
    ∧ (∀ id, cfg.active_model_config_id = some id →
        (cfg.remove_config id).2 = true →
        (cfg.remove_config id).1.active_model_config_id = none)
    ∧ (∀ id, (cfg.set_active_config id).2 = true →
        ∃ c ∈ cfg.model_configs, c.id = id) := by
  refine ⟨?_, ?_, ?_, ?_, ?_, ?_⟩
  · intro c a ha
    obtain ⟨c0, hc0, hid⟩ := hinv a ha
    exact ⟨c0, List.mem_append_left _ hc0, hid⟩
  · intro id u now a ha
    obtain ⟨c0, hc0, hid⟩ := hinv a ha
    have hmap : a ∈ (updateFirst id u now cfg.model_configs).1.map (fun c => c.id) := by
      rw [updateFirst_map_id]
      exact List.mem_map.mpr ⟨c0, hc0, hid⟩
    obtain ⟨c1, hc1, hid1⟩ := List.mem_map.mp hmap
    exact ⟨c1, hc1, hid1⟩
  · intro id a ha
    simp only [AppConfig.remove_config] at ha ⊢
    split at ha
    next => cases ha
    next h =>
      obtain ⟨c0, hc0, hid⟩ := hinv a ha
      by_cases haid : a = id
      · exfalso
        apply h
        refine ⟨?_, by rw [← haid]; exact ha⟩
        exact length_filter_lt_of_mem _ cfg.model_configs c0 hc0 (by simp [hid, haid])
      · exact ⟨c0, List.mem_filter.mpr ⟨hc0, by simp [hid, haid]⟩, hid⟩
  · intro id a ha
    simp only [AppConfig.set_active_config] at ha ⊢
    by_cases hf : cfg.model_configs.any (fun c => c.id == id) = true
    · rw [if_pos hf] at ha
      obtain rfl : id = a := Option.some.inj ha
      obtain ⟨c0, hc0, hc0id⟩ := List.any_eq_true.mp hf
      exact ⟨c0, hc0, by simpa using hc0id⟩
    · rw [if_neg hf] at ha
      exact hinv a ha
  · intro id hact hrem
    simp only [AppConfig.remove_config] at hrem ⊢
    have h : (cfg.model_configs.filter fun c => c.id ≠ id).length
        < cfg.model_configs.length ∧ cfg.active_model_config_id = some id :=
      ⟨of_decide_eq_true hrem, hact⟩
    rw [if_pos h]
  · intro id hsucc
    simp only [AppConfig.set_active_config] at hsucc
    obtain ⟨c0, hc0, hc0id⟩ := List.any_eq_true.mp hsucc
    exact ⟨c0, hc0, by simpa using hc0id⟩

/-- A sample configuration used to instantiate the configuration-set
theorems. -/
def sampleCfg : ModelConfig :=
  { id := "a", name := "n", provider := .openAI, api_base_url := "u", api_key := "k",
    default_model := "m", enabled := true, created_at := 0, updated_at := 0 }

/-- A sample configuration set whose active id is `"a"`. -/
def sampleSet : AppConfig :=
  { active_model_config_id := some "a", model_configs := [sampleCfg], model_cache := [],
    cache_expires_at := none }

theorem sampleSet_invariant : ActiveRefsExisting sampleSet := by
  intro a ha
  have h1 : "a" = a := Option.some.inj ha
  exact ⟨sampleCfg, by simp [sampleSet], h1 ▸ rfl⟩

theorem C8_active_id_invariant_witness :
    (sampleSet.remove_config "a").1.active_model_config_id = none :=
  (C8_active_id_invariant sampleSet sampleSet_invariant).2.2.2.2.1 "a" rfl (by decide)

/-- C9: `ModelConfig::update` changes exactly the supplied fields: `id`
and `created_at` are always retained, each unsupplied field keeps its
prior value, each supplied field takes the supplied value, and
`updated_at` is always set to the current time. -/
theorem C9_partial_update_frame (c : ModelConfig) (u : ModelConfigUpdate) (now : Int) :
    (c.update u now).id = c.id
    ∧ (c.update u now).created_at = c.created_at
    ∧ (c.update u now).updated_at = now
    ∧ (u.name = none → (c.update u now).name = c.name)
    ∧ (∀ v, u.name = some v → (c.update u now).name = v)
    ∧ (u.provider = none → (c.update u now).provider = c.provider)
    ∧ (∀ v, u.provider = some v → (c.update u now).provider = v)
    ∧ (u.api_base_url = none → (c.update u now).api_base_url = c.api_base_url)
    ∧ (∀ v, u.api_base_url = some v → (c.update u now).api_base_url = v)
    ∧ (u.api_key = none → (c.update u now).api_key = c.api_key)
    ∧ (∀ v, u.api_key = some v → (c.update u now).api_key = v)
    ∧ (u.default_model = none → (c.update u now).default_model = c.default_model)
    ∧ (∀ v, u.default_model = some v → (c.update u now).default_model = v)
    ∧ (u.enabled = none → (c.update u now).enabled = c.enabled)
    ∧ (∀ v, u.enabled = some v → (c.update u now).enabled = v) := by
  refine ⟨rfl, rfl, rfl, ?_, ?_, ?_, ?_, ?_, ?_, ?_, ?_, ?_, ?_, ?_, ?_⟩ <;>
    first
    | (intro h; simp [ModelConfig.update, h])
    | (intro v h; simp [ModelConfig.update, h])

/-- A sample partial update: only the display name is supplied. -/
def sampleUpd : ModelConfigUpdate :=
  { name := some "renamed", provider := none, api_base_url := none, api_key := none,
    default_model := none, enabled := none }

theorem C9_partial_update_frame_witness :
    (sampleCfg.update sampleUpd 5).name = "renamed"
    ∧ (sampleCfg.update sampleUpd 5).api_key = sampleCfg.api_key
    ∧ (sampleCfg.update sampleUpd 5).id = sampleCfg.id
    ∧ (sampleCfg.update sampleUpd 5).updated_at = 5 :=
  ⟨(C9_partial_update_frame sampleCfg sampleUpd 5).2.2.2.2.1 "renamed" rfl,
   (C9_partial_update_frame sampleCfg sampleUpd 5).2.2.2.2.2.2.2.2.2.1 rfl,
   (C9_partial_update_frame sampleCfg sampleUpd 5).1,
   (C9_partial_update_frame sampleCfg sampleUpd 5).2.2.1⟩

/-- C10: `LLMFactory::create_provider` returns a provider for every vendor
tag — its declared `ConfigurationError` branch is never produced — and
custom vendor tags route to the Custom adapter, which delegates to the
OpenAI-compatible implementation. -/
theorem C10_factory_total (config : ModelConfig) :
    (∃ p, LLMFactory.create_provider config = .ok p)
    ∧ (∀ e, LLMFactory.create_provider config ≠ .error e)
    ∧ (∀ s, config.provider = .custom s →
        LLMFactory.create_provider config = .ok .custom
        ∧ ProviderKind.delegatesToOpenAI .custom = true) := by
  refine ⟨?_, ?_, ?_⟩
  · cases h : config.provider with
    | openAI => exact ⟨.openAI, by simp [LLMFactory.create_provider, h]⟩
    | anthropic => exact ⟨.anthropic, by simp [LLMFactory.create_provider, h]⟩
    | google => exact ⟨.google, by simp [LLMFactory.create_provider, h]⟩
    | deepSeek => exact ⟨.deepSeek, by simp [LLMFactory.create_provider, h]⟩
    | azureOpenAI => exact ⟨.azureOpenAI, by simp [LLMFactory.create_provider, h]⟩
    | custom s => exact ⟨.custom, by simp [LLMFactory.create_provider, h]⟩
  · intro e hcontra
    cases h : config.provider <;>
      simp [LLMFactory.create_provider, h] at hcontra
  · intro s hs
    exact ⟨by simp [LLMFactory.create_provider, hs], rfl⟩

/-- A sample configuration with a custom vendor tag. -/
def customSampleCfg : ModelConfig :=
  { id := "c", name := "local", provider := .custom "Ollama", api_base_url := "http://localhost",
    api_key := "k", default_model := "llama", enabled := true, created_at := 0, updated_at := 0 }

theorem C10_factory_total_witness :
    LLMFactory.create_provider customSampleCfg = .ok .custom
    ∧ ProviderKind.delegatesToOpenAI .custom = true :=
  (C10_factory_total customSampleCfg).2.2 "Ollama" rfl

/-- The producer over a prefix of non-terminating events contributes
exactly the `Text` chunks for its non-empty deltas, then continues with
the rest. -/
theorem handle_nonterm_append (pre : List SourceEvent)
    (h : ∀ e ∈ pre, e.nonTerminating = true) (tail : List SourceEvent) :
    handle_stream_response (pre ++ tail)
      = (deltas_of pre).map StreamChunk.text ++ handle_stream_response tail := by
  induction pre with
  | nil => simp [deltas_of]
  | cons e rest ih =>
    have he : e.nonTerminating = true := h e (by simp)
    have hrest : ∀ x ∈ rest, x.nonTerminating = true := fun x hx => h x (by simp [hx])
    cases e with
    | message f =>
      cases f with
      | doneSentinel => simp [SourceEvent.nonTerminating] at he
      | malformed err => simp [SourceEvent.nonTerminating] at he
      | json delta =>
        cases delta with
        | none => simpa [handle_stream_response, deltas_of] using ih hrest
        | some s =>
          by_cases hs : s.data.isEmpty <;>
            simp [handle_stream_response, deltas_of, hs, ih hrest]
    | otherOk => simpa [handle_stream_response, deltas_of] using ih hrest
    | transportError err => simp [SourceEvent.nonTerminating] at he

/-- The consumer relay over `Text` chunks followed by `Done` forwards each
token, then forwards `Done`, then invokes `save_cache` on the accumulated
buffer; anything after the first `Done` on the channel is never read. -/
theorem relay_stream_texts_done (d : Option String) (repo : RepoInfo) :
    ∀ (texts : List String) (acc : String) (fs : FS) (rest : List StreamChunk),
      relay_stream d repo acc fs (texts.map StreamChunk.text ++ .done :: rest)
        = ((texts.map fun t => Effect.emit (.token t))
            ++ [.emit .done, .cacheWrite (texts.foldl (· ++ ·) acc)],
           save_cache d repo (texts.foldl (· ++ ·) acc) fs, true)
  | [], acc, fs, rest => by simp [relay_stream]
  | t :: ts, acc, fs, rest => by
    simp [relay_stream, relay_stream_texts_done d repo ts (acc ++ t) fs rest]

/-- The consumer relay over `Text` chunks followed by `Error` forwards each
token, forwards the error, and stops with failure, leaving the filesystem
untouched; anything after the `Error` on the channel is never read. -/
theorem relay_stream_texts_error (d : Option String) (repo : RepoInfo) :
    ∀ (texts : List String) (acc : String) (fs : FS) (e : String)
      (rest : List StreamChunk),
      relay_stream d repo acc fs (texts.map StreamChunk.text ++ .error e :: rest)
        = ((texts.map fun t => Effect.emit (.token t)) ++ [.emit (.error e)], fs, false)
  | [], acc, fs, e, rest => by simp [relay_stream]
  | t :: ts, acc, fs, e, rest => by
    simp [relay_stream, relay_stream_texts_error d repo ts (acc ++ t) fs e rest]

/-- Extracting payloads from a trace that starts with token emissions. -/
theorem emitted_payloads_tokens (texts : List String) (l : List Effect) :
    emitted_payloads ((texts.map fun t => Effect.emit (.token t)) ++ l)
      = texts.map StreamPayload.token ++ emitted_payloads l := by
  induction texts with
  | nil => rfl
  | cons t ts ih => simp [emitted_payloads, List.filterMap_cons] at ih ⊢; exact ih

/-- Payload extraction for the trace tail produced on the `Done` branch. -/
theorem emitted_payloads_done_write (s : String) :
    emitted_payloads [Effect.emit StreamPayload.done, Effect.cacheWrite s]
      = [StreamPayload.done] := rfl

/-- Payload extraction for the trace tail produced on the `Error` branch. -/
theorem emitted_payloads_error_only (e : String) :
    emitted_payloads [Effect.emit (StreamPayload.error e)]
      = [StreamPayload.error e] := rfl

/-- A token list contains no `Done` payload. -/
theorem count_done_tokens (texts : List String) :
    (texts.map StreamPayload.token).count StreamPayload.done = 0 := by
  rw [List.count_eq_zero]
  intro hmem
  obtain ⟨t, _, ht⟩ := List.mem_map.mp hmem
  cases ht

/-- C1 is refuted on the malformed-frame path: for the provider event
sequence consisting of a single malformed frame, the consumer forwards
only the Error payload and observes no Done event at all — the adapter's
trailing Done chunk is left unread because the consumer aborts on Error. -/
theorem C1_counterexample :
    emitted_payloads
        (relay_stream none (mkRepo "a" "b") "" fsEmpty
          (handle_stream_response [.message (.malformed "bad")])).1
      = [.error "bad"]
    ∧ StreamPayload.done ∉
        emitted_payloads
          (relay_stream none (mkRepo "a" "b") "" fsEmpty
            (handle_stream_response [.message (.malformed "bad")])).1 := by
  refine ⟨?_, ?_⟩ <;> decide

/-- C1 (amended): for a provider event sequence ending in the terminator
sentinel, the consumer observes exactly one Done, and it is final; when
the sequence ends in a malformed frame, the adapter still emits Done as
the last chunk on the channel, but the consumer forwards the Error as its
final event, observes no Done, and the call returns a failure instead. -/
theorem C1_stream_termination_amended (pre : List SourceEvent)
    (h : ∀ e ∈ pre, e.nonTerminating = true)
    (d : Option String) (repo : RepoInfo) (fs : FS) (err : String) :
    emitted_payloads
        (relay_stream d repo "" fs
          (handle_stream_response (pre ++ [.message .doneSentinel]))).1
      = (deltas_of pre).map StreamPayload.token ++ [.done]
    ∧ (emitted_payloads
        (relay_stream d repo "" fs
          (handle_stream_response (pre ++ [.message .doneSentinel]))).1).count .done = 1
    ∧ (emitted_payloads
        (relay_stream d repo "" fs
          (handle_stream_response (pre ++ [.message .doneSentinel]))).1).getLast?
        = some .done
    ∧ (handle_stream_response (pre ++ [.message (.malformed err)])).getLast?
        = some .done
    ∧ emitted_payloads
        (relay_stream d repo "" fs
          (handle_stream_response (pre ++ [.message (.malformed err)]))).1
      = (deltas_of pre).map StreamPayload.token ++ [.error err]
    ∧ (relay_stream d repo "" fs
        (handle_stream_response (pre ++ [.message (.malformed err)]))).2.2 = false
    ∧ StreamPayload.done ∉
        emitted_payloads
          (relay_stream d repo "" fs
            (handle_stream_response (pre ++ [.message (.malformed err)]))).1 := by
  have hterm : handle_stream_response (pre ++ [.message .doneSentinel])
      = (deltas_of pre).map StreamChunk.text ++ [.done, .done] := by
    rw [handle_nonterm_append pre h]
    rfl
  have hmal : handle_stream_response (pre ++ [.message (.malformed err)])
      = (deltas_of pre).map StreamChunk.text ++ [.error err, .done] := by
    rw [handle_nonterm_append pre h]
    rfl
  have hrel1 := relay_stream_texts_done d repo (deltas_of pre) "" fs [.done]
  have hrel2 := relay_stream_texts_error d repo (deltas_of pre) "" fs err [.done]
  have hp1 : emitted_payloads
      (relay_stream d repo "" fs
        (handle_stream_response (pre ++ [.message .doneSentinel]))).1
      = (deltas_of pre).map StreamPayload.token ++ [.done] := by
    rw [hterm, hrel1]
    simp only [emitted_payloads_tokens, emitted_payloads_done_write]
  have hp2 : emitted_payloads
      (relay_stream d repo "" fs
        (handle_stream_response (pre ++ [.message (.malformed err)]))).1
      = (deltas_of pre).map StreamPayload.token ++ [.error err] := by
    rw [hmal, hrel2]
    simp only [emitted_payloads_tokens, emitted_payloads_error_only]
  refine ⟨hp1, ?_, ?_, ?_, hp2, ?_, ?_⟩
  · rw [hp1]
    simp [List.count_append, count_done_tokens]
  · rw [hp1]
    exact List.getLast?_concat _
  · rw [hmal]
    rw [show (deltas_of pre).map StreamChunk.text ++ [StreamChunk.error err, .done]
        = ((deltas_of pre).map StreamChunk.text ++ [StreamChunk.error err]) ++ [.done] by
      simp]
    exact List.getLast?_concat _
  · rw [hmal, hrel2]
  · rw [hp2]
    simp

theorem C1_stream_termination_witness :
    emitted_payloads
        (relay_stream none (mkRepo "w" "x") "" fsEmpty
          (handle_stream_response
            ([SourceEvent.message (.json (some "Hi"))] ++ [.message .doneSentinel]))).1
      = [StreamPayload.token "Hi", .done] :=
  (C1_stream_termination_amended [.message (.json (some "Hi"))] (by decide) none
    (mkRepo "w" "x") fsEmpty "oops").1

/-- A context-fetch environment in which every fetch comes back absent. -/
def env0 : FetchEnv := { readme := none, tree := none, file := fun _ => none }

/-- C2 is refuted as stated: with neither credential nor config id
supplied and no cache hit, the call does fail with the request-validation
error, but only after a network call (the README fetch) was attempted. -/
theorem C2_counterexample :
    (summarize_repo env0 [] (.ok (.stream [])) (mkRepo "x" "y") none none none none
        (some "data") fsEmpty).1 = [.netReadme]
    ∧ (summarize_repo env0 [] (.ok (.stream [])) (mkRepo "x" "y") none none none none
        (some "data") fsEmpty).2.2 = .error "必须提供 API Key 或模型配置 ID"
    ∧ ((summarize_repo env0 [] (.ok (.stream [])) (mkRepo "x" "y") none none none none
        (some "data") fsEmpty).1.any Effect.isNetwork) = true := by
  refine ⟨?_, ?_, ?_⟩ <;> rfl

/-- The deep-mode manifest loop performs only file fetches, never a
provider invocation. -/
theorem netProvider_not_mem_manifest (env : FetchEnv) :
    ∀ fl : List String, Effect.netProvider ∉ manifest_fetch_effects env fl
  | [] => by simp [manifest_fetch_effects]
  | f :: rest => by
    cases h : env.file f <;>
      simp [manifest_fetch_effects, h, netProvider_not_mem_manifest env rest]

/-- C2 (amended): with neither credential nor config id supplied, and no
cache hit short-circuiting the request, the call fails with the
request-validation error before any provider call is attempted — but after
the context-composition network fetches, which include the README fetch. -/
theorem C2_missing_credentials_amended (env : FetchEnv) (configs : List ModelConfig)
    (respE : Except LLMError LLMResponseM) (repo : RepoInfo)
    (deep refresh : Option Bool) (dataDir : Option String) (fs : FS)
    (hmiss : (if refresh.getD false then none
        else get_cached_insight_internal dataDir repo fs) = none) :
    (summarize_repo env configs respE repo none none deep refresh dataDir fs).2.2
      = .error "必须提供 API Key 或模型配置 ID"
    ∧ Effect.netProvider ∉
        (summarize_repo env configs respE repo none none deep refresh dataDir fs).1
    ∧ Effect.netReadme ∈
        (summarize_repo env configs respE repo none none deep refresh dataDir fs).1 := by
  have hstep : summarize_repo env configs respE repo none none deep refresh dataDir fs
      = (Effect.netReadme ::
          (if deep.getD false then
            Effect.netTree :: manifest_fetch_effects env config_files else []),
         fs, Except.error "必须提供 API Key 或模型配置 ID") := by
    simp only [summarize_repo]
    rw [hmiss]
  rw [hstep]
  refine ⟨rfl, ?_, by simp⟩
  by_cases hd : deep.getD false <;>
    simp [hd, netProvider_not_mem_manifest env config_files]

theorem C2_missing_credentials_witness :
    (if (none : Option Bool).getD false then none
        else get_cached_insight_internal (some "data") (mkRepo "x" "y") fsEmpty) = none
    ∧ (summarize_repo env0 [] (.ok (.stream [])) (mkRepo "x" "y") none none none none
        (some "data") fsEmpty).2.2 = .error "必须提供 API Key 或模型配置 ID" :=
  ⟨rfl, (C2_missing_credentials_amended env0 [] (.ok (.stream [])) (mkRepo "x" "y")
    none none (some "data") fsEmpty rfl).1⟩

/-- C3 is refuted as stated: in the relayed stream ending with Done and a
non-empty buffer, the Done payload is emitted at index 2 and the cache
commit happens at index 3 — the commit does not precede the completion
signal. -/
theorem C3_counterexample :
    (relay_stream (some "data") (mkRepo "octo" "repo") "" fsEmpty
        [.text "Hello", .text " World", .done]).1
      = [.emit (.token "Hello"), .emit (.token " World"), .emit .done,
         .cacheWrite "Hello World"]
    ∧ idxOfDoneEmit ((relay_stream (some "data") (mkRepo "octo" "repo") "" fsEmpty
        [.text "Hello", .text " World", .done]).1) = some 2
    ∧ idxOfCacheWrite ((relay_stream (some "data") (mkRepo "octo" "repo") "" fsEmpty
        [.text "Hello", .text " World", .done]).1) = some 3
    ∧ cache_commit_precedes_done ((relay_stream (some "data") (mkRepo "octo" "repo") ""
        fsEmpty [.text "Hello", .text " World", .done]).1) = false := by
  refine ⟨?_, ?_, ?_, ?_⟩ <;> decide

/-- C3 (amended): when the provider stream ends with Done, the consumer
forwards every token, then the Done signal, and then — after Done but
still before the call returns — commits the accumulated concatenation to
the Insight Cache; provided the trimmed concatenation is at least the
10-byte threshold, a subsequent get for the same identity returns the
concatenation of all streamed tokens. -/
theorem C3_commit_after_done_amended (d : String) (repo : RepoInfo) (fs : FS)
    (texts : List String)
    (hlen : 10 ≤ rustLen (rustTrim (texts.foldl (· ++ ·) ""))) :
    (relay_stream (some d) repo "" fs (texts.map StreamChunk.text ++ [.done])).1
      = (texts.map fun t => Effect.emit (.token t))
          ++ [.emit .done, .cacheWrite (texts.foldl (· ++ ·) "")]
    ∧ get_cached_insight_internal (some d) repo
        (relay_stream (some d) repo "" fs (texts.map StreamChunk.text ++ [.done])).2.1
      = some (texts.foldl (· ++ ·) "") := by
  have h := relay_stream_texts_done (some d) repo texts "" fs []
  constructor
  · rw [h]
  · rw [h]
    exact save_cache_get d repo _ fs hlen

theorem C3_commit_after_done_witness :
    10 ≤ rustLen (rustTrim (["Hello", " World"].foldl (· ++ ·) ""))
    ∧ get_cached_insight_internal (some "data") (mkRepo "octo" "repo")
        (relay_stream (some "data") (mkRepo "octo" "repo") "" fsEmpty
          (["Hello", " World"].map StreamChunk.text ++ [.done])).2.1
      = some (["Hello", " World"].foldl (· ++ ·) "") :=
  ⟨by decide,
   (C3_commit_after_done_amended "data" (mkRepo "octo" "repo") fsEmpty
     ["Hello", " World"] (by decide)).2⟩

end GithubCapture
